import Mathlib

/-!
Shallow embedding of the paper-trading core of the Telegram-ct repository
(`src/paper_trader.py`, `src/price_tracker.py`, `src/trader.py`,
`src/telegram_client.py`) together with proofs about the claims of the
specification.

Modelling conventions:
* Python floats are modelled as exact rationals (`ℚ`); Python strings as
  `String`; Python dicts with optional keys as structures with `Option`
  fields; the insertion-ordered `self.positions` dict as an association
  list of `(symbol, trade)` pairs.
* Sources of nondeterminism read inside the Python functions — the random
  slippage draw `random.uniform(0.1, max_slippage)`, the simulated price,
  `uuid.uuid4()` and `time.time()` — are passed as explicit arguments
  (`u`, `current_price`, `trade_id`, `now`).  Distinct wall-clock reads
  inside one call are collapsed to one `now` argument.
* Python raises `ZeroDivisionError` on division by zero, which
  `execute_paper_trade`'s `except` clause turns into an unsuccessful
  result before any state mutation; the embedding makes those guards
  explicit branches instead of using Lean's `x / 0 = 0` convention.
* File I/O (`_save_data` writing `paper_trading.json`) is modelled as the
  pure snapshot document produced/consumed by `_save_data`/`_load_data`.
-/

/-- One trade dict as created by `PaperTrader.execute_paper_trade`
(an "open"/buy record, also the value stored in `self.positions`) or by
`PaperTrader.close_paper_position` (a "sell"/closing record).  Keys that
only some records carry are `Option` fields. -/
structure Trade where
  trade_id : String
  related_trade_id : Option String
  token_address : String
  token_name : String
  entry_time : Option ℚ
  exit_time : Option ℚ
  entry_price : ℚ
  exit_price : Option ℚ
  amount : ℚ
  value_usd : ℚ
  fee_usd : ℚ
  stop_loss_price : Option ℚ
  take_profit_levels : Option (List ℚ)
  realized_pnl : Option ℚ
  pnl_percentage : Option ℚ
  holding_time : Option ℚ
  close_reason : Option String
  status : String
  slippage : ℚ
  tradeType : String
deriving DecidableEq

/-- The `self.trading_parameters` dict of `PaperTrader`. -/
structure TradingParameters where
  position_size : ℚ
  initial_sl : ℚ
  trail_percent : ℚ
  take_profit_levels : String
  max_slippage : ℚ
deriving DecidableEq

/-- The mutable state of a `PaperTrader` instance: the fields that
`_save_data` persists. -/
structure PaperTraderState where
  virtual_balance : ℚ
  positions : List (String × Trade)
  trade_history : List Trade
  started_at : ℚ
  trading_parameters : TradingParameters
  paused : Bool
  auto_execution : Bool
deriving DecidableEq

/-- The JSON document written by `PaperTrader._save_data` and read back by
`PaperTrader._load_data`.  Fields are optional because `_load_data` reads
each with `data.get(key, default)`. -/
structure SavedDoc where
  virtual_balance : Option ℚ
  positions : Option (List (String × Trade))
  trade_history : Option (List Trade)
  started_at : Option ℚ
  trading_parameters : Option TradingParameters
  paused : Option Bool
  auto_execution : Option Bool
deriving DecidableEq

/-- Result of `execute_paper_trade`: the success dict or the error dict. -/
inductive ExecResult where
  | ok (trade_id token_address token_name : String)
      (price amount value_usd fee_usd stop_loss_price : ℚ)
      (take_profit_levels : List ℚ) (slippage : ℚ)
  | err (msg : String)
deriving DecidableEq

/-- The `success` key of an `execute_paper_trade` result dict. -/
def ExecResult.success : ExecResult → Bool
  | .ok .. => true
  | .err _ => false

/-- Result of `close_paper_position`: the success dict or the error dict. -/
inductive CloseResult where
  | ok (trade_id token_address token_name : String)
      (entry_price exit_price amount value_usd fee_usd realized_pnl pnl_percentage : ℚ)
      (close_reason : String)
  | err (msg : String)
deriving DecidableEq

/-- The `success` key of a `close_paper_position` result dict. -/
def CloseResult.success : CloseResult → Bool
  | .ok .. => true
  | .err _ => false

/-- Value of a hexadecimal digit, mirroring Python `int(c, 16)` on a single
character (`None` models the `ValueError` raised on non-hex input). -/
def hexVal (c : Char) : Option ℕ :=
  if '0' ≤ c ∧ c ≤ '9' then some (c.toNat - 48)
  else if 'a' ≤ c ∧ c ≤ 'f' then some (c.toNat - 87)
  else if 'A' ≤ c ∧ c ≤ 'F' then some (c.toNat - 55)
  else none

/-- ASCII fragment of Python `str.isalnum` (token addresses are ASCII). -/
def isAlnumAscii (c : Char) : Bool := c.isAlpha || c.isDigit

/-- The comprehension
`[chr(ord('A') + int(c, 16) % 26) for c in chars if c.isalnum()]`:
non-alphanumeric characters are skipped, an alphanumeric non-hex character
raises (modelled by `none`). -/
def mapAddrChars : List Char → Option (List Char)
  | [] => some []
  | c :: cs =>
    if isAlnumAscii c then
      match hexVal c with
      | some v => (mapAddrChars cs).map (fun r => Char.ofNat (65 + v % 26) :: r)
      | none => none
    else mapAddrChars cs

/-- `PaperTrader._get_token_symbol`: first three characters of the address
mapped through `mapAddrChars`; empty address or a raised exception gives
`"UNK"`. -/
def get_token_symbol (token_address : String) : String :=
  if token_address = "" then "UNK"
  else
    match mapAddrChars (token_address.data.take 3) with
    | some cs => String.mk cs
    | none => "UNK"

/-- `PaperTrader._get_token_name`: first four characters of the address
mapped through `mapAddrChars` with a `" Token"` suffix; empty address or a
raised exception gives `"Unknown Token"`. -/
def get_token_name (token_address : String) : String :=
  if token_address = "" then "Unknown Token"
  else
    match mapAddrChars (token_address.data.take 4) with
    | some cs => String.mk cs ++ " Token"
    | none => "Unknown Token"

/-- Digits folded to a natural number (helper for float parsing). -/
def digitsVal (cs : List Char) : ℕ :=
  cs.foldl (fun n c => 10 * n + (c.toNat - 48)) 0

/-- Python `float(s)` on an unsigned plain decimal literal (digits with an
optional single dot).  Exotic forms Python also accepts (exponents,
whitespace, `inf`/`nan`) are not produced by the configured
take-profit strings and are mapped to `none` (a parse failure). -/
def parseUnsignedFloat (cs : List Char) : Option ℚ :=
  if cs.contains '.' then
    let ip := cs.takeWhile (fun c => c ≠ '.')
    let fp := (cs.dropWhile (fun c => c ≠ '.')).drop 1
    if fp.contains '.' then none
    else if ip.isEmpty && fp.isEmpty then none
    else if ip.all Char.isDigit && fp.all Char.isDigit then
      some ((digitsVal ip : ℚ) + (digitsVal fp : ℚ) / (10 ^ fp.length))
    else none
  else if cs.isEmpty then none
  else if cs.all Char.isDigit then some (digitsVal cs : ℚ)
  else none

/-- Python `float(s)` with an optional leading sign. -/
def parseFloat (s : String) : Option ℚ :=
  match s.data with
  | '-' :: rest => (parseUnsignedFloat rest).map (fun q => -q)
  | '+' :: rest => parseUnsignedFloat rest
  | cs => parseUnsignedFloat cs

/-- Sequence a list of parse results (the list comprehension fails as a
whole if any element raises). -/
def allSome : List (Option ℚ) → Option (List ℚ)
  | [] => some []
  | none :: _ => none
  | some q :: rest => (allSome rest).map (fun l => q :: l)

/-- Take-profit parsing in `execute_paper_trade`: default `[20, 40, 100]`,
overridden by `[float(level) for level in take_profit_str.split(',')]`
when the configured string is non-empty and parses. -/
def tpListOfString (s : String) : List ℚ :=
  if s = "" then [20, 40, 100]
  else
    match allSome ((s.splitOn ",").map parseFloat) with
    | some l => l
    | none => [20, 40, 100]

/-- Python dict assignment `d[k] = v` on an insertion-ordered dict:
replace in place if the key exists, else append. -/
def dictSet (k : String) (v : Trade) : List (String × Trade) → List (String × Trade)
  | [] => [(k, v)]
  | p :: ps => if p.1 == k then (k, v) :: ps else p :: dictSet k v ps

/-- Python dict lookup `d.get(k)`. -/
def dictGet (k : String) (l : List (String × Trade)) : Option Trade :=
  (l.find? (fun p => p.1 == k)).map (fun p => p.2)

/-- Python membership test `k in d`. -/
def keyMem (k : String) (l : List (String × Trade)) : Bool :=
  l.any (fun p => p.1 == k)

/-- Python `del d[k]` (keys are unique in a dict, so removing every pair
with the key removes exactly the one entry). -/
def dictErase (k : String) (l : List (String × Trade)) : List (String × Trade) :=
  l.filter (fun p => !(p.1 == k))

/-- The in-place update loop of `close_paper_position`: mutate the first
history record whose `trade_id` matches, leave the rest unchanged. -/
def mutateFirst (tid : String) (f : Trade → Trade) : List Trade → List Trade
  | [] => []
  | t :: ts => if t.trade_id == tid then f t :: ts else t :: mutateFirst tid f ts

/-- First history record with the given `trade_id`. -/
def firstMatch (tid : String) (h : List Trade) : Option Trade :=
  h.find? (fun t => t.trade_id == tid)

/-- `PaperTrader.execute_paper_trade`.  Arguments beyond the state mirror
the Python call plus its internal nondeterminism: `p_position_size` and
`p_stop_loss` are `trade_params.get('position_size')` and
`trade_params.get('stop_loss')`; `current_price` is the value returned by
`_get_current_price`; `u` is the `random.uniform(0.1, max_slippage)` draw;
`now` is `time.time()`; `trade_id` is the generated uuid. -/
def execute_paper_trade (s : PaperTraderState) (token_address : String)
    (p_position_size p_stop_loss : Option ℚ) (current_price u now : ℚ)
    (trade_id : String) : ExecResult × PaperTraderState :=
  if s.paused then
    (.err "Bot is paused. Enable auto-trading to execute this signal.", s)
  else if !s.auto_execution then
    (.err "Auto-execution is disabled. Enable it to automatically execute signals.", s)
  else
    let position_size := p_position_size.getD s.trading_parameters.position_size
    let stop_loss := p_stop_loss.getD s.trading_parameters.initial_sl
    let take_profit_levels := tpListOfString s.trading_parameters.take_profit_levels
    let trade_amount_usd := s.virtual_balance * (position_size / 100)
    if current_price = 0 then
      (.err "float division by zero", s)
    else
      let slippage := min u s.trading_parameters.max_slippage / 100
      let execution_price := current_price * (1 + slippage)
      let fee_percentage : ℚ := 0.25
      let fee_amount := trade_amount_usd * (fee_percentage / 100)
      let actual_trade_amount := trade_amount_usd - fee_amount
      if execution_price = 0 then
        (.err "float division by zero", s)
      else
        let actual_token_amount := actual_trade_amount / execution_price
        if trade_amount_usd > s.virtual_balance then
          (.err "Insufficient virtual balance.", s)
        else
          let paper_trade : Trade :=
            { trade_id := trade_id
              related_trade_id := none
              token_address := token_address
              token_name := get_token_name token_address
              entry_time := some now
              exit_time := none
              entry_price := execution_price
              exit_price := none
              amount := actual_token_amount
              value_usd := actual_trade_amount
              fee_usd := fee_amount
              stop_loss_price := some (execution_price * (1 - stop_loss / 100))
              take_profit_levels := some take_profit_levels
              realized_pnl := none
              pnl_percentage := none
              holding_time := none
              close_reason := none
              status := "open"
              slippage := slippage * 100
              tradeType := "buy" }
          let symbol := get_token_symbol token_address
          (.ok trade_id token_address paper_trade.token_name execution_price
              actual_token_amount actual_trade_amount fee_amount
              (execution_price * (1 - stop_loss / 100)) take_profit_levels
              (slippage * 100),
            { s with
                virtual_balance := s.virtual_balance - trade_amount_usd
                positions := dictSet symbol paper_trade s.positions
                trade_history := s.trade_history ++ [paper_trade] })

/-- The position lookup at the top of `close_paper_position`: by symbol if
the key is in `self.positions`, otherwise the first position whose
`trade_id` matches. -/
def findPosition (s : PaperTraderState) (key : String) : Option (String × Trade) :=
  match dictGet key s.positions with
  | some pos => some (key, pos)
  | none => s.positions.find? (fun p => p.2.trade_id == key)

/-- `PaperTrader.close_paper_position`.  `current_price_arg` is the
optional `current_price` parameter, `fetched_price` the value
`_get_current_price` would return when it is absent, `u` the slippage
draw, `now` the wall clock and `new_trade_id` the generated uuid.
A position record without `entry_time` would raise `KeyError` inside the
closing-record literal (caught by the `except` clause before any state
mutation), modelled by the error branch. -/
def close_paper_position (s : PaperTraderState) (symbol_or_trade_id close_reason : String)
    (current_price_arg : Option ℚ) (fetched_price u now : ℚ)
    (new_trade_id : String) : CloseResult × PaperTraderState :=
  match findPosition s symbol_or_trade_id with
  | none => (.err "Position not found", s)
  | some (symbol, position) =>
    match position.entry_time with
    | none => (.err "KeyError: entry_time", s)
    | some entry_time =>
      let current_price := current_price_arg.getD fetched_price
      let slippage := min u s.trading_parameters.max_slippage / 100
      let execution_price := current_price * (1 - slippage)
      let token_amount := position.amount
      let position_value := token_amount * execution_price
      let fee_percentage : ℚ := 0.25
      let fee_amount := position_value * (fee_percentage / 100)
      let actual_position_value := position_value - fee_amount
      let entry_value := token_amount * position.entry_price
      let realized_pnl := actual_position_value - entry_value
      let pnl_percentage := if entry_value > 0 then (realized_pnl / entry_value) * 100 else 0
      let closing_trade : Trade :=
        { trade_id := new_trade_id
          related_trade_id := some position.trade_id
          token_address := position.token_address
          token_name := position.token_name
          entry_time := none
          exit_time := some now
          entry_price := position.entry_price
          exit_price := some execution_price
          amount := token_amount
          value_usd := actual_position_value
          fee_usd := fee_amount
          stop_loss_price := none
          take_profit_levels := none
          realized_pnl := some realized_pnl
          pnl_percentage := some pnl_percentage
          holding_time := some (now - entry_time)
          close_reason := some close_reason
          status := "closed"
          slippage := slippage * 100
          tradeType := "sell" }
      let closeMut : Trade → Trade := fun t =>
        { t with
            status := "closed"
            exit_price := some execution_price
            exit_time := some now
            realized_pnl := some realized_pnl
            pnl_percentage := some pnl_percentage
            close_reason := some close_reason }
      (.ok new_trade_id position.token_address position.token_name
          position.entry_price execution_price token_amount
          actual_position_value fee_amount realized_pnl pnl_percentage close_reason,
        { s with
            virtual_balance := s.virtual_balance + actual_position_value
            trade_history := mutateFirst position.trade_id closeMut s.trade_history ++ [closing_trade]
            positions := dictErase symbol s.positions })

/-- One entry of the list returned by `PaperTrader.get_open_positions`. -/
structure PositionInfo where
  symbol : String
  trade_id : String
  token_address : String
  token_name : String
  entry_price : ℚ
  current_price : ℚ
  amount : ℚ
  value_usd : ℚ
  unrealized_pnl : ℚ
  pnl_percentage : ℚ
  entry_time : ℚ
  holding_time : ℚ
deriving DecidableEq

/-- `PaperTrader.get_open_positions`; `price_of` supplies the value
`_get_current_price` returns per token and `now` is `time.time()`.
Open-position records always carry `entry_time` (set by
`execute_paper_trade`), read here with default 0. -/
def get_open_positions (s : PaperTraderState) (price_of : String → ℚ) (now : ℚ) :
    List PositionInfo :=
  s.positions.map fun p =>
    let position := p.2
    let current_price := price_of position.token_address
    let position_value := position.amount * current_price
    let entry_value := position.amount * position.entry_price
    let unrealized_pnl := position_value - entry_value
    let pnl_percentage := if entry_value > 0 then (unrealized_pnl / entry_value) * 100 else 0
    { symbol := p.1
      trade_id := position.trade_id
      token_address := position.token_address
      token_name := position.token_name
      entry_price := position.entry_price
      current_price := current_price
      amount := position.amount
      value_usd := position_value
      unrealized_pnl := unrealized_pnl
      pnl_percentage := pnl_percentage
      entry_time := position.entry_time.getD 0
      holding_time := now - position.entry_time.getD 0 }

/-- The sort key `x.get('entry_time', 0)` of `get_trade_history`. -/
def entryKey (t : Trade) : ℚ := t.entry_time.getD 0

/-- The page dict returned by `PaperTrader.get_trade_history`. -/
structure HistoryPage where
  trades : List Trade
  total : ℕ
  offset : ℕ
  limit : ℕ
deriving DecidableEq

/-- `PaperTrader.get_trade_history`: stable sort of the history by
`entry_time` (missing key read as 0), newest first, then the slice
`[offset : offset + limit]`. -/
def get_trade_history (s : PaperTraderState) (limit : ℕ) (offset : ℕ) : HistoryPage :=
  let sorted_trades := s.trade_history.mergeSort (fun a b => decide (entryKey b ≤ entryKey a))
  let paginated :=
    if offset < sorted_trades.length then (sorted_trades.drop offset).take limit else []
  { trades := paginated
    total := sorted_trades.length
    offset := offset
    limit := limit }

/-- `PaperTrader._save_data`: the snapshot document (every field present). -/
def save_data (s : PaperTraderState) : SavedDoc :=
  { virtual_balance := some s.virtual_balance
    positions := some s.positions
    trade_history := some s.trade_history
    started_at := some s.started_at
    trading_parameters := some s.trading_parameters
    paused := some s.paused
    auto_execution := some s.auto_execution }

/-- `PaperTrader._load_data`: each field is read with `data.get(key, d)`
where `d` is the current in-memory value for `virtual_balance` and
`trading_parameters`, the empty container for `positions` and
`trade_history`, `time.time()` (passed as `now`) for `started_at`, and
the literals `False`/`True` for `paused`/`auto_execution`. -/
def load_data (d : SavedDoc) (s : PaperTraderState) (now : ℚ) : PaperTraderState :=
  { virtual_balance := d.virtual_balance.getD s.virtual_balance
    positions := d.positions.getD []
    trade_history := d.trade_history.getD []
    started_at := d.started_at.getD now
    trading_parameters := d.trading_parameters.getD s.trading_parameters
    paused := d.paused.getD false
    auto_execution := d.auto_execution.getD true }

/-- The `tracking_info` dict of `PriceTracker.start_tracking`. -/
structure TrackingInfo where
  entry_price : ℚ
  current_price : ℚ
  highest_price : ℚ
  initial_sl_level : ℚ
  current_sl_level : ℚ
  sl_triggered : Bool
  start_time : ℚ
deriving DecidableEq

/-- One iteration of the `PriceTracker.monitor_price` loop for one token.
`trail_percent` is `config.trail_percent`; `fetched` is the result of
`get_current_price` (`none` models a `None` return; Python's
`if not current_price` also treats the float `0.0` as a failed fetch).
When `sl_triggered` already holds the loop guard stops the body from
running, so the state is returned unchanged. -/
def monitor_price_tick (trail_percent : ℚ) (info : TrackingInfo)
    (fetched : Option ℚ) : TrackingInfo :=
  if info.sl_triggered then info
  else
    match fetched with
    | none => info
    | some current_price =>
      if current_price = 0 then info
      else
        let info1 := { info with current_price := current_price }
        let info2 :=
          if current_price > info1.highest_price then
            let hi := { info1 with highest_price := current_price }
            let new_sl_level := current_price * (1 - trail_percent / 100)
            if new_sl_level > hi.current_sl_level then
              { hi with current_sl_level := new_sl_level }
            else hi
          else info1
        if current_price ≤ info2.current_sl_level then
          { info2 with sl_triggered := true }
        else info2

/-- The trailing-stop update inside `Trader.monitor_trade` (trader.py
lines 339-354): on a new high, when trailing is enabled the candidate stop
`highest * (1 - (trail_percent + sell_tax / 2) / 100)` replaces the stop
only if strictly greater.  Returns `(highest_price, stop_loss_price)`. -/
def trader_trailing_update (trail_percent sell_tax : ℚ)
    (highest_price stop_loss_price current_price : ℚ) : ℚ × ℚ :=
  if current_price > highest_price then
    let highest := current_price
    if trail_percent > 0 then
      let adjusted_trail := trail_percent + sell_tax / 2
      let new_stop_loss := highest * (1 - adjusted_trail / 100)
      if new_stop_loss > stop_loss_price then (highest, new_stop_loss)
      else (highest, stop_loss_price)
    else (highest, stop_loss_price)
  else (highest_price, stop_loss_price)

/-- The dedup key of `TelegramMonitor._handle_new_message`:
`f"{token_address}_{int(time.time())}"`. -/
def signal_key (token_address : String) (tsec : ℤ) : String :=
  token_address ++ "_" ++ toString tsec

/-- The dedup gate of `_handle_new_message`: skip when the key was already
processed, otherwise remember it.  (The bounded-size eviction rewrites the
set through Python's nondeterministic set iteration order and is elided;
it only ever removes keys.)  Returns `(proceed, processed')`. -/
def signal_dedup_gate (processed : List String) (token_address : String) (tsec : ℤ) :
    Bool × List String :=
  let key := signal_key token_address tsec
  if processed.contains key then (false, processed)
  else (true, processed ++ [key])

/-- An Open or Close request against the paper trader, carrying the
nondeterministic inputs of the corresponding Python call. -/
inductive TraderOp where
  | openTrade (token_address : String) (p_position_size p_stop_loss : Option ℚ)
      (current_price u now : ℚ) (trade_id : String)
  | closeTrade (key close_reason : String) (current_price_arg : Option ℚ)
      (fetched_price u now : ℚ) (trade_id : String)
deriving DecidableEq

/-- State transition of one operation (the result dict is discarded;
failed operations leave the state unchanged). -/
def applyOp (s : PaperTraderState) : TraderOp → PaperTraderState
  | .openTrade tok pp psl pr u now tid => (execute_paper_trade s tok pp psl pr u now tid).2
  | .closeTrade k r arg f u now tid => (close_paper_position s k r arg f u now tid).2

/-- Trade ids already present in the history. -/
def historyIds (s : PaperTraderState) : List String :=
  s.trade_history.map (fun t => t.trade_id)

/-- Trade ids of the open positions. -/
def positionIds (s : PaperTraderState) : List String :=
  s.positions.map (fun p => p.2.trade_id)

/-- Freshness side conditions matching the uuid4 draws of the source: an
open's symbol is not already an open position (the source has no duplicate
check, cf. claim C4) and its trade id is fresh in the history; a close's
new trade id does not collide with an open position's id. -/
def opOk (s : PaperTraderState) : TraderOp → Bool
  | .openTrade tok _ _ _ _ _ tid =>
      !keyMem (get_token_symbol tok) s.positions && !(historyIds s).contains tid
  | .closeTrade _ _ _ _ _ _ tid => !(positionIds s).contains tid

/-- All operations of a trace satisfy `opOk` at the state they run in. -/
def traceOk (s : PaperTraderState) : List TraderOp → Bool
  | [] => true
  | op :: ops => opOk s op && traceOk (applyOp s op) ops

/-- Sum of `value_usd` (cost basis) over the open positions. -/
def sumValues (l : List (String × Trade)) : ℚ :=
  (l.map (fun p => p.2.value_usd)).sum

/-- Net realized pnl summed over the closing ("sell") records. -/
def sellPnl (h : List Trade) : ℚ :=
  ((h.filter (fun t => t.tradeType == "sell")).map (fun t => t.realized_pnl.getD 0)).sum

/-- Fees summed over the open ("buy") records. -/
def buyFees (h : List Trade) : ℚ :=
  ((h.filter (fun t => t.tradeType == "buy")).map (fun t => t.fee_usd)).sum

/-- Fees summed over all history records. -/
def totalFees (h : List Trade) : ℚ :=
  (h.map (fun t => t.fee_usd)).sum

/-- The quantity claimed to be conserved by the specification:
`virtualBalance + Σ costBasisUsd(open positions) + Σ realizedPnl(closed trades)`. -/
def claimQty (s : PaperTraderState) : ℚ :=
  s.virtual_balance + sumValues s.positions + sellPnl s.trade_history

/-- The quantity the code actually conserves:
`virtualBalance + Σ costBasisUsd(open positions) - Σ realizedPnl(sell records)
 + Σ fee(buy records)` (sell-side fees are already netted inside
`realized_pnl`). -/
def conservedQty (s : PaperTraderState) : ℚ :=
  s.virtual_balance + sumValues s.positions - sellPnl s.trade_history + buyFees s.trade_history

/-- Every open position satisfies `amount * entry_price = value_usd`
(exact in rational arithmetic, since `execute_paper_trade` sets
`amount = value_usd / execution_price`). -/
def posInvB (s : PaperTraderState) : Bool :=
  s.positions.all fun p => decide (p.2.amount * p.2.entry_price = p.2.value_usd)

/-- The position dict has no duplicate keys (true of every Python dict). -/
def keysNodupB : List (String × Trade) → Bool
  | [] => true
  | p :: ps => !keyMem p.1 ps && keysNodupB ps

/-- The first history record with the given trade id, if any, is not a
sell record. -/
def notSellAt (h : List Trade) (tid : String) : Bool :=
  match firstMatch tid h with
  | none => true
  | some t => !(t.tradeType == "sell")

/-- For every open position, the first history record carrying its trade
id (the record `close_paper_position` would mutate) is not a sell
record. -/
def linkOkB (s : PaperTraderState) : Bool :=
  s.positions.all fun p => notSellAt s.trade_history p.2.trade_id

/-- Structural well-formedness of a trader state; holds for the fresh
account and is preserved by `applyOp` under `opOk`. -/
def goodState (s : PaperTraderState) : Bool :=
  posInvB s && keysNodupB s.positions && linkOkB s

/-- The fresh account produced by `PaperTrader.__init__` with the default
configuration (balance 10000, 3% position size, 30% initial stop, 5%
trail, 15% max slippage).  The take-profit string is left empty, which
makes `execute_paper_trade` fall back to the documented default
`[20, 40, 100]`. -/
def freshState : PaperTraderState :=
  { virtual_balance := 10000
    positions := []
    trade_history := []
    started_at := 0
    trading_parameters :=
      { position_size := 3
        initial_sl := 30
        trail_percent := 5
        take_profit_levels := ""
        max_slippage := 15 }
    paused := false
    auto_execution := true }

/-- Shared concrete run: open token "aa" at quoted price 1 with slippage
draw 0.1 at time 100. -/
def opOpenC : TraderOp := .openTrade "aa" none none 1 (1/10) 100 "t1"

/-- Shared concrete run: close the position (symbol "KK") at quoted price
2 with slippage draw 0.1 one second later. -/
def opCloseC : TraderOp := .closeTrade "KK" "manual" (some 2) 0 (1/10) 101 "t2"

/-- State after the concrete open. -/
def stateAfterOpen : PaperTraderState := applyOp freshState opOpenC

/-- State after the concrete open followed by the concrete close. -/
def stateAfterClose : PaperTraderState := applyOp stateAfterOpen opCloseC

/-- The open ("buy") record the concrete open creates: symbol "KK",
execution price `1 * (1 + 0.001) = 1.001`, sized amount 300, fee 0.75,
cost basis 299.25, quantity `299.25 / 1.001 = 42750/143`. -/
def openTradeC : Trade :=
  { trade_id := "t1", related_trade_id := none, token_address := "aa",
    token_name := "KK Token", entry_time := some 100, exit_time := none,
    entry_price := 1001/1000, exit_price := none, amount := 42750/143,
    value_usd := 1197/4, fee_usd := 3/4, stop_loss_price := some (7007/10000),
    take_profit_levels := some [20, 40, 100], realized_pnl := none,
    pnl_percentage := none, holding_time := none, close_reason := none,
    status := "open", slippage := 1/10, tradeType := "buy" }

/-- The in-place mutation the concrete close applies to the open record in
the history. -/
def openTradeClosedC : Trade :=
  { openTradeC with
      status := "closed", exit_price := some (999/500), exit_time := some 101,
      realized_pnl := some (33926571/114400), pnl_percentage := some (28343/286),
      close_reason := some "manual" }

/-- The closing ("sell") record the concrete close appends: exit execution
price `2 * (1 - 0.001) = 1.998`, proceeds net of fee `68160771/114400`,
realized pnl `33926571/114400 ≈ 296.56`. -/
def closeTradeC : Trade :=
  { trade_id := "t2", related_trade_id := some "t1", token_address := "aa",
    token_name := "KK Token", entry_time := none, exit_time := some 101,
    entry_price := 1001/1000, exit_price := some (999/500), amount := 42750/143,
    value_usd := 68160771/114400, fee_usd := 170829/114400,
    stop_loss_price := none, take_profit_levels := none,
    realized_pnl := some (33926571/114400), pnl_percentage := some (28343/286),
    holding_time := some 1, close_reason := some "manual",
    status := "closed", slippage := 1/10, tradeType := "sell" }

/-- A record's own timestamp in the sense of the specification's
"newest-first by entryTime/timestamp": the entry time for open records,
the exit time for exit records (which carry no `entry_time` key). -/
def specTimestamp (t : Trade) : ℚ :=
  match t.entry_time with
  | some q => q
  | none => t.exit_time.getD 0

/-- The history-record fields that the in-place update of
`close_paper_position` leaves untouched (it only sets `status`,
`exit_price`, `exit_time`, `realized_pnl`, `pnl_percentage` and
`close_reason`). -/
def sameCoreFields (t t' : Trade) : Prop :=
  t'.trade_id = t.trade_id ∧ t'.related_trade_id = t.related_trade_id ∧
  t'.token_address = t.token_address ∧ t'.token_name = t.token_name ∧
  t'.entry_time = t.entry_time ∧ t'.entry_price = t.entry_price ∧
  t'.amount = t.amount ∧ t'.value_usd = t.value_usd ∧
  t'.fee_usd = t.fee_usd ∧ t'.stop_loss_price = t.stop_loss_price ∧
  t'.take_profit_levels = t.take_profit_levels ∧
  t'.holding_time = t.holding_time ∧ t'.slippage = t.slippage ∧
  t'.tradeType = t.tradeType

/-- A concrete tracking-info record: entry 1, stop 0.7, nothing triggered. -/
def trackC : TrackingInfo :=
  { entry_price := 1, current_price := 1, highest_price := 1,
    initial_sl_level := 7/10, current_sl_level := 7/10, sl_triggered := false,
    start_time := 0 }

/-- A concrete tracking-info record whose stop (1.95) already exceeds the
trailing candidate that a tick to price 2 with a 5% trail would propose
(1.9). -/
def trackC2 : TrackingInfo :=
  { entry_price := 1, current_price := 1, highest_price := 3/2,
    initial_sl_level := 39/20, current_sl_level := 39/20, sl_triggered := false,
    start_time := 0 }

lemma sumValues_append (l₁ l₂ : List (String × Trade)) :
    sumValues (l₁ ++ l₂) = sumValues l₁ + sumValues l₂ := by
  simp [sumValues]

lemma sellPnl_append (h₁ h₂ : List Trade) :
    sellPnl (h₁ ++ h₂) = sellPnl h₁ + sellPnl h₂ := by
  simp [sellPnl]

lemma buyFees_append (h₁ h₂ : List Trade) :
    buyFees (h₁ ++ h₂) = buyFees h₁ + buyFees h₂ := by
  simp [buyFees]

lemma keyMem_of_mem {l : List (String × Trade)} {sym : String} {pos : Trade}
    (h : (sym, pos) ∈ l) : keyMem sym l = true := by
  simp only [keyMem, List.any_eq_true]
  exact ⟨(sym, pos), h, by simp⟩

lemma dictSet_append {k : String} {v : Trade} {l : List (String × Trade)}
    (h : keyMem k l = false) : dictSet k v l = l ++ [(k, v)] := by
  induction l with
  | nil => rfl
  | cons p ps ih =>
    simp only [keyMem, List.any_cons, Bool.or_eq_false_iff] at h
    simp only [dictSet, h.1, cond_false, List.cons_append]
    rw [if_neg (by simp [h.1]), ih (by simp [keyMem, h.2])]

lemma dictErase_of_not_mem {k : String} {l : List (String × Trade)}
    (h : keyMem k l = false) : dictErase k l = l := by
  induction l with
  | nil => rfl
  | cons p ps ih =>
    simp only [keyMem, List.any_cons, Bool.or_eq_false_iff] at h
    simp only [dictErase, List.filter_cons]
    rw [if_pos (by simp [h.1])]
    have := ih (by simp [keyMem, h.2])
    simp only [dictErase] at this
    rw [this]

lemma keyMem_filter {k : String} {g : String × Trade → Bool} {l : List (String × Trade)}
    (h : keyMem k l = false) : keyMem k (l.filter g) = false := by
  simp only [keyMem, List.any_eq_false] at h ⊢
  intro p hp
  exact h p (List.mem_of_mem_filter hp)

lemma keysNodupB_filter {g : String × Trade → Bool} {l : List (String × Trade)}
    (h : keysNodupB l = true) : keysNodupB (l.filter g) = true := by
  induction l with
  | nil => rfl
  | cons p ps ih =>
    simp only [keysNodupB, Bool.and_eq_true, Bool.not_eq_true'] at h
    simp only [List.filter_cons]
    split
    · simp only [keysNodupB, Bool.and_eq_true, Bool.not_eq_true']
      exact ⟨keyMem_filter h.1, ih h.2⟩
    · exact ih h.2

lemma keyMem_append_single (k k' : String) (v : Trade) (l : List (String × Trade)) :
    keyMem k (l ++ [(k', v)]) = (keyMem k l || (k' == k)) := by
  simp [keyMem, List.any_append]

lemma keysNodupB_append {l : List (String × Trade)} {k : String} {v : Trade}
    (hn : keysNodupB l = true) (hk : keyMem k l = false) :
    keysNodupB (l ++ [(k, v)]) = true := by
  induction l with
  | nil => simp [keysNodupB, keyMem]
  | cons p ps ih =>
    simp only [keysNodupB, Bool.and_eq_true, Bool.not_eq_true'] at hn
    simp only [keyMem, List.any_cons, Bool.or_eq_false_iff] at hk
    simp only [List.cons_append, keysNodupB, Bool.and_eq_true, Bool.not_eq_true']
    refine ⟨?_, ih hn.2 (by simpa [keyMem] using hk.2)⟩
    rw [List.append_eq, keyMem_append_single]
    simp only [Bool.or_eq_false_iff]
    refine ⟨hn.1, ?_⟩
    have hne : p.1 ≠ k := by simpa using hk.1
    simp [Ne.symm hne]

lemma sumValues_erase {l : List (String × Trade)} {sym : String} {pos : Trade}
    (hn : keysNodupB l = true) (hm : (sym, pos) ∈ l) :
    sumValues (dictErase sym l) = sumValues l - pos.value_usd := by
  induction l with
  | nil => cases hm
  | cons p ps ih =>
    simp only [keysNodupB, Bool.and_eq_true, Bool.not_eq_true'] at hn
    rcases List.mem_cons.mp hm with heq | hmem
    · subst heq
      simp only [dictErase, List.filter_cons]
      rw [if_neg (by simp)]
      have hrest : keyMem sym ps = false := hn.1
      have := dictErase_of_not_mem (k := sym) (l := ps) hrest
      simp only [dictErase] at this
      rw [this]
      simp [sumValues]
    · have hne : p.1 ≠ sym := by
        intro hcontra
        have : keyMem p.1 ps = true := hcontra ▸ keyMem_of_mem hmem
        rw [hn.1] at this
        cases this
      simp only [dictErase, List.filter_cons]
      rw [if_pos (by simp [hne])]
      have := ih hn.2 hmem
      simp only [dictErase] at this
      simp only [sumValues, List.map_cons, List.sum_cons] at this ⊢
      rw [this]
      ring

lemma all_of_filter {g f : String × Trade → Bool} {l : List (String × Trade)}
    (h : l.all f = true) : (l.filter g).all f = true := by
  simp only [List.all_eq_true] at h ⊢
  intro p hp
  exact h p (List.mem_of_mem_filter hp)

lemma mem_of_mem_dictErase {l : List (String × Trade)} {sym : String}
    {p : String × Trade} (h : p ∈ dictErase sym l) : p ∈ l :=
  List.mem_of_mem_filter h

lemma findPosition_mem {s : PaperTraderState} {key sym : String} {pos : Trade}
    (h : findPosition s key = some (sym, pos)) : (sym, pos) ∈ s.positions := by
  unfold findPosition at h
  cases hget : dictGet key s.positions with
  | some q =>
    rw [hget] at h
    injection h with h'
    unfold dictGet at hget
    cases hfind : s.positions.find? (fun p => p.1 == key) with
    | none => rw [hfind] at hget; cases hget
    | some r =>
      rw [hfind] at hget
      injection hget with hq
      have hr := List.find?_some hfind
      have hrk : r.1 = key := by simpa using hr
      have : (sym, pos) = r := by
        rw [← h', ← hq, ← hrk]
      rw [this]
      exact List.mem_of_find?_eq_some hfind
  | none =>
    rw [hget] at h
    exact List.mem_of_find?_eq_some h

lemma mutateFirst_of_no_match {tid : String} {f : Trade → Trade} {l : List Trade}
    (h : firstMatch tid l = none) : mutateFirst tid f l = l := by
  induction l with
  | nil => rfl
  | cons t ts ih =>
    rw [firstMatch, List.find?_eq_none] at h
    have hbeq : ¬(t.trade_id == tid) = true := h t (List.mem_cons_self t ts)
    have h' : firstMatch tid ts = none := by
      rw [firstMatch, List.find?_eq_none]
      exact fun x hx => h x (List.mem_cons_of_mem _ hx)
    simp only [mutateFirst]
    rw [if_neg hbeq, ih h']

lemma buyFees_mutateFirst {tid : String} {f : Trade → Trade} {l : List Trade}
    (hp : ∀ t, (f t).tradeType = t.tradeType ∧ (f t).fee_usd = t.fee_usd) :
    buyFees (mutateFirst tid f l) = buyFees l := by
  induction l with
  | nil => rfl
  | cons t ts ih =>
    simp only [mutateFirst]
    split
    · simp only [buyFees, List.filter_cons, (hp t).1]
      split
      · simp [(hp t).2]
      · rfl
    · simp only [buyFees, List.filter_cons] at ih ⊢
      split
      · simpa using ih
      · exact ih

lemma sellPnl_mutateFirst {tid : String} {f : Trade → Trade} {l : List Trade}
    (hp : ∀ t, (f t).tradeType = t.tradeType ∧ (f t).fee_usd = t.fee_usd)
    (hns : notSellAt l tid = true) :
    sellPnl (mutateFirst tid f l) = sellPnl l := by
  induction l with
  | nil => rfl
  | cons t ts ih =>
    simp only [mutateFirst]
    split
    · rename_i hmatch
      have hfm : firstMatch tid (t :: ts) = some t := by
        simp [firstMatch, List.find?_cons, hmatch]
      rw [notSellAt, hfm] at hns
      have htype : t.tradeType ≠ "sell" := by
        intro hcontra
        simp [hcontra] at hns
      simp only [sellPnl, List.filter_cons, (hp t).1]
      rw [if_neg (by simp [htype]), if_neg (by simp [htype])]
    · rename_i hmatch
      have hns' : notSellAt ts tid = true := by
        unfold notSellAt firstMatch at hns ⊢
        simp only [List.find?_cons] at hns
        rcases hb : (t.trade_id == tid) with _ | _
        · rw [hb] at hns
          exact hns
        · exact absurd hb hmatch
      simp only [sellPnl, List.filter_cons] at ih ⊢
      split
      · simpa using ih hns'
      · exact ih hns'

lemma firstMatch_append (tid : String) (h₁ h₂ : List Trade) :
    firstMatch tid (h₁ ++ h₂) = (firstMatch tid h₁).or (firstMatch tid h₂) := by
  unfold firstMatch
  exact List.find?_append

lemma notSellAt_append_not_sell {h : List Trade} {t : Trade} {tid : String}
    (ht : t.tradeType ≠ "sell") (hns : notSellAt h tid = true) :
    notSellAt (h ++ [t]) tid = true := by
  rw [notSellAt, firstMatch_append]
  cases hfm : firstMatch tid h with
  | some r =>
    rw [notSellAt, hfm] at hns
    rw [Option.or_some]
    exact hns
  | none =>
    rw [Option.none_or]
    unfold firstMatch
    simp only [List.find?_cons, List.find?_nil]
    rcases hb : (t.trade_id == tid) with _ | _
    · rfl
    · simp [ht]

lemma notSellAt_fresh {h : List Trade} {t : Trade} {tid : String}
    (hid : t.trade_id = tid) (ht : t.tradeType ≠ "sell")
    (hfresh : firstMatch tid h = none) : notSellAt (h ++ [t]) tid = true := by
  rw [notSellAt, firstMatch_append, hfresh, Option.none_or]
  unfold firstMatch
  simp only [List.find?_cons, List.find?_nil]
  rw [show (t.trade_id == tid) = true by simp [hid]]
  simp [ht]

lemma notSellAt_append_other {h : List Trade} {t : Trade} {q : String}
    (hne : t.trade_id ≠ q) : notSellAt (h ++ [t]) q = notSellAt h q := by
  rw [notSellAt, notSellAt, firstMatch_append]
  have : firstMatch q [t] = none := by
    unfold firstMatch
    simp only [List.find?_cons, List.find?_nil]
    rw [show (t.trade_id == q) = false by simp [hne]]
  rw [this]
  cases firstMatch q h with
  | some r => rw [Option.or_some]
  | none => rw [Option.none_or]

lemma notSellAt_mutateFirst {tid q : String} {f : Trade → Trade} {l : List Trade}
    (hpres : ∀ t, (f t).trade_id = t.trade_id ∧ (f t).tradeType = t.tradeType) :
    notSellAt (mutateFirst tid f l) q = notSellAt l q := by
  induction l with
  | nil => rfl
  | cons t ts ih =>
    simp only [mutateFirst]
    split
    · rw [notSellAt, notSellAt]
      unfold firstMatch
      simp only [List.find?_cons, (hpres t).1]
      rcases hb : (t.trade_id == q) with _ | _
      · rfl
      · simp [(hpres t).2]
    · rw [notSellAt, notSellAt]
      unfold firstMatch
      simp only [List.find?_cons]
      rcases hb : (t.trade_id == q) with _ | _
      · rw [notSellAt, notSellAt] at ih
        unfold firstMatch at ih
        exact ih
      · rfl

lemma posInv_at {s : PaperTraderState} (h : posInvB s = true) {sym : String}
    {pos : Trade} (hm : (sym, pos) ∈ s.positions) :
    pos.amount * pos.entry_price = pos.value_usd := by
  rw [posInvB, List.all_eq_true] at h
  exact of_decide_eq_true (h (sym, pos) hm)

lemma linkOk_at {s : PaperTraderState} (h : linkOkB s = true) {sym : String}
    {pos : Trade} (hm : (sym, pos) ∈ s.positions) :
    notSellAt s.trade_history pos.trade_id = true := by
  rw [linkOkB, List.all_eq_true] at h
  exact h (sym, pos) hm

lemma not_mem_of_contains_eq_false {l : List String} {a : String}
    (h : l.contains a = false) : ∀ x ∈ l, x ≠ a := by
  intro x hx hc
  subst hc
  have ht : l.contains x = true := List.elem_iff.mpr hx
  rw [ht] at h
  cases h

lemma conservedQty_open_update (s : PaperTraderState) (sym : String) (pt : Trade)
    (A : ℚ) (hval : pt.value_usd = A - pt.fee_usd) (htype : pt.tradeType = "buy")
    (hsym : keyMem sym s.positions = false) :
    conservedQty
      { s with
          virtual_balance := s.virtual_balance - A
          positions := dictSet sym pt s.positions
          trade_history := s.trade_history ++ [pt] } = conservedQty s := by
  unfold conservedQty
  rw [dictSet_append hsym]
  simp only [sumValues_append, sellPnl_append, buyFees_append]
  have h1 : sumValues [(sym, pt)] = pt.value_usd := by simp [sumValues]
  have h2 : sellPnl [pt] = 0 := by simp [sellPnl, htype]
  have h3 : buyFees [pt] = pt.fee_usd := by simp [buyFees, htype]
  rw [h1, h2, h3, hval]
  ring

lemma goodState_open_update (s : PaperTraderState) (sym : String) (pt : Trade)
    (b : ℚ) (hg : goodState s = true) (hsym : keyMem sym s.positions = false)
    (hfresh : firstMatch pt.trade_id s.trade_history = none)
    (hinv : pt.amount * pt.entry_price = pt.value_usd)
    (htype : pt.tradeType = "buy") :
    goodState
      { s with
          virtual_balance := b
          positions := dictSet sym pt s.positions
          trade_history := s.trade_history ++ [pt] } = true := by
  rw [goodState, Bool.and_eq_true, Bool.and_eq_true] at hg
  obtain ⟨⟨hpos, hnodup⟩, hlink⟩ := hg
  rw [goodState, Bool.and_eq_true, Bool.and_eq_true]
  rw [dictSet_append hsym]
  refine ⟨⟨?_, ?_⟩, ?_⟩
  · rw [posInvB, List.all_eq_true]
    intro p hp
    rcases List.mem_append.mp hp with hmem | hmem
    · rw [posInvB, List.all_eq_true] at hpos
      exact hpos p hmem
    · rcases List.mem_singleton.mp hmem with rfl
      exact decide_eq_true hinv
  · exact keysNodupB_append hnodup hsym
  · rw [linkOkB, List.all_eq_true]
    intro p hp
    rcases List.mem_append.mp hp with hmem | hmem
    · exact notSellAt_append_not_sell (by simp [htype])
        (linkOk_at hlink (show (p.1, p.2) ∈ s.positions by simpa using hmem))
    · rcases List.mem_singleton.mp hmem with rfl
      exact notSellAt_fresh rfl (by simp [htype]) hfresh

lemma conservedQty_close_update (s : PaperTraderState) (sym : String)
    (pos closing : Trade) (net : ℚ) (g : Trade → Trade)
    (hmem : (sym, pos) ∈ s.positions) (hnodup : keysNodupB s.positions = true)
    (hposinv : pos.amount * pos.entry_price = pos.value_usd)
    (hns : notSellAt s.trade_history pos.trade_id = true)
    (hgpres : ∀ t, (g t).tradeType = t.tradeType ∧ (g t).fee_usd = t.fee_usd)
    (hctype : closing.tradeType = "sell")
    (hcpnl : closing.realized_pnl = some (net - pos.amount * pos.entry_price)) :
    conservedQty
      { s with
          virtual_balance := s.virtual_balance + net
          positions := dictErase sym s.positions
          trade_history := mutateFirst pos.trade_id g s.trade_history ++ [closing] } =
      conservedQty s := by
  unfold conservedQty
  rw [sumValues_erase hnodup hmem]
  simp only [sellPnl_append, buyFees_append]
  rw [sellPnl_mutateFirst hgpres hns, buyFees_mutateFirst hgpres]
  have h2 : sellPnl [closing] = net - pos.amount * pos.entry_price := by
    simp [sellPnl, hctype, hcpnl]
  have h3 : buyFees [closing] = 0 := by simp [buyFees, hctype]
  rw [h2, h3, hposinv]
  ring

lemma goodState_close_update (s : PaperTraderState) (sym : String)
    (pos closing : Trade) (b : ℚ) (g : Trade → Trade)
    (hg : goodState s = true)
    (hgpres : ∀ t, (g t).trade_id = t.trade_id ∧ (g t).tradeType = t.tradeType)
    (hcid : ∀ p ∈ s.positions, closing.trade_id ≠ (p : String × Trade).2.trade_id) :
    goodState
      { s with
          virtual_balance := b
          positions := dictErase sym s.positions
          trade_history := mutateFirst pos.trade_id g s.trade_history ++ [closing] } = true := by
  rw [goodState, Bool.and_eq_true, Bool.and_eq_true] at hg
  obtain ⟨⟨hpos, hnodup⟩, hlink⟩ := hg
  rw [goodState, Bool.and_eq_true, Bool.and_eq_true]
  refine ⟨⟨?_, keysNodupB_filter hnodup⟩, ?_⟩
  · rw [posInvB] at hpos ⊢
    exact all_of_filter hpos
  · rw [linkOkB, List.all_eq_true]
    intro p hp
    have hp' : p ∈ s.positions := mem_of_mem_dictErase hp
    rw [notSellAt_append_other (hcid p hp'), notSellAt_mutateFirst hgpres]
    exact linkOk_at hlink (show (p.1, p.2) ∈ s.positions by simpa using hp')

lemma firstMatch_none_of_fresh {s : PaperTraderState} {tid : String}
    (h : (historyIds s).contains tid = false) :
    firstMatch tid s.trade_history = none := by
  rw [firstMatch, List.find?_eq_none]
  intro t ht hbeq
  exact not_mem_of_contains_eq_false h t.trade_id
    (List.mem_map_of_mem _ ht) (by simpa using hbeq)

lemma step_open (s : PaperTraderState) (tok : String) (pp psl : Option ℚ)
    (pr u now : ℚ) (tid : String)
    (hg : goodState s = true)
    (hsym : keyMem (get_token_symbol tok) s.positions = false)
    (htid : (historyIds s).contains tid = false) :
    conservedQty (execute_paper_trade s tok pp psl pr u now tid).2 = conservedQty s ∧
    goodState (execute_paper_trade s tok pp psl pr u now tid).2 = true := by
  simp only [execute_paper_trade]
  split
  · exact ⟨rfl, hg⟩
  split
  · exact ⟨rfl, hg⟩
  split
  · exact ⟨rfl, hg⟩
  split
  · exact ⟨rfl, hg⟩
  rename_i hexec
  split
  · exact ⟨rfl, hg⟩
  constructor
  · exact conservedQty_open_update s (get_token_symbol tok) _ _ rfl rfl hsym
  · refine goodState_open_update s (get_token_symbol tok) _ _ hg hsym
      (firstMatch_none_of_fresh htid) ?_ rfl
    exact div_mul_cancel₀ _ hexec

lemma step_close (s : PaperTraderState) (key reason : String) (arg : Option ℚ)
    (fp u now : ℚ) (tid : String)
    (hg : goodState s = true)
    (htid : (positionIds s).contains tid = false) :
    conservedQty (close_paper_position s key reason arg fp u now tid).2 = conservedQty s ∧
    goodState (close_paper_position s key reason arg fp u now tid).2 = true := by
  unfold close_paper_position
  cases hfind : findPosition s key with
  | none => exact ⟨rfl, hg⟩
  | some sp =>
    obtain ⟨sym, pos⟩ := sp
    dsimp only
    cases hentry : pos.entry_time with
    | none => exact ⟨rfl, hg⟩
    | some et =>
      have hmem := findPosition_mem hfind
      have hgc := hg
      rw [goodState, Bool.and_eq_true, Bool.and_eq_true] at hgc
      obtain ⟨⟨hpos, hnodup⟩, hlink⟩ := hgc
      have hcid : ∀ p ∈ s.positions, tid ≠ (p : String × Trade).2.trade_id := by
        intro p hp hcontra
        exact not_mem_of_contains_eq_false htid p.2.trade_id
          (List.mem_map_of_mem _ hp) hcontra.symm
      constructor
      · exact conservedQty_close_update s sym pos _ _ _ hmem hnodup
          (posInv_at hpos hmem) (linkOk_at hlink hmem) (fun t => ⟨rfl, rfl⟩) rfl rfl
      · exact goodState_close_update s sym pos _ _ _ hg (fun t => ⟨rfl, rfl⟩) hcid

lemma applyOp_step (s : PaperTraderState) (op : TraderOp)
    (hg : goodState s = true) (ho : opOk s op = true) :
    conservedQty (applyOp s op) = conservedQty s ∧ goodState (applyOp s op) = true := by
  cases op with
  | openTrade tok pp psl pr u now tid =>
    rw [opOk, Bool.and_eq_true, Bool.not_eq_true', Bool.not_eq_true'] at ho
    exact step_open s tok pp psl pr u now tid hg ho.1 ho.2
  | closeTrade key reason arg fp u now tid =>
    rw [opOk, Bool.not_eq_true'] at ho
    exact step_close s key reason arg fp u now tid hg ho

lemma stateAfterOpen_eq : stateAfterOpen =
    { virtual_balance := 9700
      positions := [("KK", openTradeC)]
      trade_history := [openTradeC]
      started_at := 0
      trading_parameters := freshState.trading_parameters
      paused := false
      auto_execution := true } := by
  unfold stateAfterOpen applyOp opOpenC
  dsimp only
  unfold execute_paper_trade freshState
  dsimp only
  have hsym : get_token_symbol "aa" = "KK" := by decide
  have hname : get_token_name "aa" = "KK Token" := by decide
  rw [show (1/10 : ℚ) ⊓ 15 = 1/10 from min_eq_left (by norm_num)]
  norm_num [hsym, hname, tpListOfString, openTradeC, dictSet]

lemma stateAfterClose_eq : stateAfterClose =
    { virtual_balance := 1177840771/114400
      positions := []
      trade_history := [openTradeClosedC, closeTradeC]
      started_at := 0
      trading_parameters := freshState.trading_parameters
      paused := false
      auto_execution := true } := by
  have h1 : stateAfterClose = applyOp stateAfterOpen opCloseC := rfl
  rw [h1, stateAfterOpen_eq]
  unfold applyOp opCloseC close_paper_position findPosition dictGet
  dsimp only
  have hfind : List.find? (fun p => p.1 == "KK") [("KK", openTradeC)] =
      some ("KK", openTradeC) := List.find?_cons_of_pos _ (by rfl)
  rw [hfind]
  simp only [Option.map]
  rw [show openTradeC.entry_time = some 100 from rfl]
  rw [show (1/10 : ℚ) ⊓ freshState.trading_parameters.max_slippage = 1/10 from
    min_eq_left (by norm_num [freshState])]
  norm_num [openTradeC, openTradeClosedC, closeTradeC, mutateFirst, dictErase, freshState]

/-- C1, counterexample: one successful Open (price 1, slippage draw 0.1)
followed by one successful Close of the same position at price 2 leaves
`virtualBalance + Σ costBasisUsd(open positions) + Σ realizedPnl(closed
trades)` about 592.37 above the starting balance, while the fees charged
total only about 2.24 — the claimed quantity is not conserved modulo
fees (the realized pnl enters the balance through the sale proceeds and
is counted again by the `+ realizedPnl` term). -/
theorem c1_balance_conservation_counterexample :
    (execute_paper_trade freshState "aa" none none 1 (1/10) 100 "t1").1.success = true ∧
    (close_paper_position stateAfterOpen "KK" "manual" (some 2) 0 (1/10) 101 "t2").1.success = true ∧
    ¬ (|claimQty stateAfterClose - freshState.virtual_balance| ≤
        totalFees stateAfterClose.trade_history) := by
  refine ⟨?_, ?_, ?_⟩
  · unfold execute_paper_trade freshState
    dsimp only
    rw [show (1/10 : ℚ) ⊓ 15 = 1/10 from min_eq_left (by norm_num)]
    norm_num [ExecResult.success]
  · rw [stateAfterOpen_eq]
    unfold close_paper_position findPosition dictGet
    dsimp only
    have hfind : List.find? (fun p => p.1 == "KK") [("KK", openTradeC)] =
        some ("KK", openTradeC) := List.find?_cons_of_pos _ (by rfl)
    rw [hfind]
    simp only [Option.map]
    rw [show openTradeC.entry_time = some 100 from rfl]
    dsimp only
    rfl
  · have hq : claimQty stateAfterClose = 605883671/57200 := by
      rw [stateAfterClose_eq]
      norm_num [claimQty, sumValues, sellPnl, openTradeClosedC, closeTradeC, openTradeC,
        List.filter_cons, List.filter_nil,
        show (("buy" : String) == "sell") = false from by decide,
        show (("sell" : String) == "sell") = true from by decide]
    have hf : totalFees stateAfterClose.trade_history = 256629/114400 := by
      rw [stateAfterClose_eq]
      norm_num [totalFees, openTradeClosedC, closeTradeC, openTradeC]
    rw [hq, hf, show freshState.virtual_balance = (10000 : ℚ) from rfl,
      abs_of_nonneg (by norm_num)]
    norm_num

/-- C1 (amended): the quantity the code conserves exactly is
`virtualBalance + Σ costBasisUsd(open positions) - Σ realizedPnl(sell
records) + Σ fee(buy records)` — the sell-side fee is already netted
inside `realized_pnl`, and the realized pnl must be subtracted because the
sale proceeds already flow into the balance.  It is invariant under every
sequence of Open and Close operations (successful or failed) from any
structurally well-formed account state, provided no open overwrites an
existing position's symbol and the generated trade ids are fresh (the
uuid4 behaviour; the code itself has no duplicate-open check, see C4). -/
theorem c1_balance_conservation (s : PaperTraderState) (ops : List TraderOp)
    (hg : goodState s = true) (ht : traceOk s ops = true) :
    conservedQty (ops.foldl applyOp s) = conservedQty s ∧
    goodState (ops.foldl applyOp s) = true := by
  induction ops generalizing s with
  | nil => exact ⟨rfl, hg⟩
  | cons op ops ih =>
    rw [traceOk, Bool.and_eq_true] at ht
    obtain ⟨h1, h2⟩ := ht
    have hstep := applyOp_step s op hg h1
    have hrest := ih (applyOp s op) hstep.2 h2
    exact ⟨hrest.1.trans hstep.1, hrest.2⟩

/-- C1, witness: the conserved quantity stays exactly 10000 through the
concrete open-then-close run of the counterexample. -/
theorem c1_balance_conservation_witness :
    goodState freshState = true ∧ traceOk freshState [opOpenC, opCloseC] = true ∧
    conservedQty ([opOpenC, opCloseC].foldl applyOp freshState) = conservedQty freshState := by
  have hg : goodState freshState = true := rfl
  have ht : traceOk freshState [opOpenC, opCloseC] = true := by
    show (opOk freshState opOpenC &&
      (opOk (applyOp freshState opOpenC) opCloseC &&
        traceOk (applyOp (applyOp freshState opOpenC) opCloseC) [])) = true
    rw [show applyOp freshState opOpenC = stateAfterOpen from rfl, stateAfterOpen_eq]
    rfl
  exact ⟨hg, ht, (c1_balance_conservation freshState [opOpenC, opCloseC] hg ht).1⟩

lemma dictGet_dictSet (k : String) (v : Trade) (l : List (String × Trade)) :
    dictGet k (dictSet k v l) = some v := by
  induction l with
  | nil =>
    simp [dictSet, dictGet, List.find?_cons_of_pos]
  | cons p ps ih =>
    by_cases hb : (p.1 == k) = true
    · simp only [dictSet, hb, if_pos]
      simp [dictGet, List.find?_cons_of_pos]
    · simp only [dictSet, hb]
      rw [if_neg (by simp)]
      unfold dictGet at ih ⊢
      rw [@List.find?_cons_of_neg _ (fun q => q.1 == k) p (dictSet k v ps) hb]
      exact ih

/-- C10: when the bot is paused or auto-execution is disabled,
`execute_paper_trade` returns an unsuccessful result and leaves the state
(virtual balance, positions, history, parameters) completely unchanged —
the gates are checked before any mutation. -/
theorem c10_gate_no_mutation (s : PaperTraderState) (tok : String)
    (pp psl : Option ℚ) (pr u now : ℚ) (tid : String)
    (h : s.paused = true ∨ s.auto_execution = false) :
    (execute_paper_trade s tok pp psl pr u now tid).1.success = false ∧
    (execute_paper_trade s tok pp psl pr u now tid).2 = s := by
  unfold execute_paper_trade
  rcases h with h | h
  · rw [if_pos h]
    exact ⟨rfl, rfl⟩
  · by_cases hp : s.paused = true
    · rw [if_pos hp]
      exact ⟨rfl, rfl⟩
    · rw [if_neg hp, if_pos (by simp [h])]
      exact ⟨rfl, rfl⟩

/-- C10, witness: a paused account with the default configuration rejects
an open request and is left untouched. -/
theorem c10_gate_no_mutation_witness :
    ({ freshState with paused := true } : PaperTraderState).paused = true ∧
    (execute_paper_trade { freshState with paused := true } "aa" none none 1 (1/10) 100 "t1").1.success = false ∧
    (execute_paper_trade { freshState with paused := true } "aa" none none 1 (1/10) 100 "t1").2 =
      { freshState with paused := true } := by
  refine ⟨rfl, ?_, ?_⟩
  · exact (c10_gate_no_mutation { freshState with paused := true } "aa" none none 1
      (1/10) 100 "t1" (Or.inl rfl)).1
  · exact (c10_gate_no_mutation { freshState with paused := true } "aa" none none 1
      (1/10) 100 "t1" (Or.inl rfl)).2

/-- C2 (amended): for every successful Open the balance is debited by
exactly `sizedAmountUsd = virtualBalance * positionPct / 100`, the created
position's cost basis (`value_usd`, also the last history record) equals
`sizedAmountUsd` minus the 0.25% fee, its quantity equals
`costBasisUsd / executionPrice`, and the stored position is exactly the
appended record.  The cost basis is strictly below `sizedAmountUsd`
whenever `sizedAmountUsd` is positive; at the degenerate (but reachable)
input `sizedAmountUsd = 0` the open still succeeds and the two are equal,
so the claim's unconditional strict inequality fails (see the
counterexample). -/
theorem c2_open_accounting (s : PaperTraderState) (tok : String)
    (pp psl : Option ℚ) (pr u now : ℚ) (tid : String)
    (hsucc : (execute_paper_trade s tok pp psl pr u now tid).1.success = true) :
    s.virtual_balance - (execute_paper_trade s tok pp psl pr u now tid).2.virtual_balance =
      s.virtual_balance * (pp.getD s.trading_parameters.position_size / 100) ∧
    ((execute_paper_trade s tok pp psl pr u now tid).2.trade_history.getLast?).map
        (fun t => t.value_usd) =
      some (s.virtual_balance * (pp.getD s.trading_parameters.position_size / 100) -
        s.virtual_balance * (pp.getD s.trading_parameters.position_size / 100) * (0.25/100)) ∧
    ((execute_paper_trade s tok pp psl pr u now tid).2.trade_history.getLast?).map
        (fun t => t.amount) =
      some ((s.virtual_balance * (pp.getD s.trading_parameters.position_size / 100) -
        s.virtual_balance * (pp.getD s.trading_parameters.position_size / 100) * (0.25/100)) /
        (pr * (1 + min u s.trading_parameters.max_slippage / 100))) ∧
    (0 < s.virtual_balance * (pp.getD s.trading_parameters.position_size / 100) →
      s.virtual_balance * (pp.getD s.trading_parameters.position_size / 100) -
        s.virtual_balance * (pp.getD s.trading_parameters.position_size / 100) * (0.25/100) <
      s.virtual_balance * (pp.getD s.trading_parameters.position_size / 100)) ∧
    dictGet (get_token_symbol tok) (execute_paper_trade s tok pp psl pr u now tid).2.positions =
      (execute_paper_trade s tok pp psl pr u now tid).2.trade_history.getLast? := by
  simp only [execute_paper_trade] at hsucc ⊢
  split at hsucc
  · simp [ExecResult.success] at hsucc
  split at hsucc
  · simp [ExecResult.success] at hsucc
  split at hsucc
  · simp [ExecResult.success] at hsucc
  split at hsucc
  · simp [ExecResult.success] at hsucc
  split at hsucc
  · simp [ExecResult.success] at hsucc
  rename_i h1 h2 h3 h4 h5
  rw [if_neg h1, if_neg h2, if_neg h3, if_neg h4, if_neg h5]
  dsimp only
  rw [List.getLast?_concat, dictGet_dictSet]
  refine ⟨by ring, rfl, rfl, ?_, rfl⟩
  intro hTA
  have hfee : 0 < s.virtual_balance *
      (pp.getD s.trading_parameters.position_size / 100) * (0.25/100) :=
    mul_pos hTA (by norm_num)
  linarith

/-- C2, counterexample: an Open with requested position size 0% (so
`sizedAmountUsd = 0`) succeeds — the balance check `0 > 10000` does not
fire — and the created cost basis equals 0 = `sizedAmountUsd`, so
`costBasisUsd < sizedAmountUsd` fails for this successful Open. -/
theorem c2_open_accounting_counterexample :
    (execute_paper_trade freshState "aa" (some 0) none 1 (1/10) 100 "t1").1.success = true ∧
    freshState.virtual_balance * ((some (0:ℚ)).getD freshState.trading_parameters.position_size / 100) = 0 ∧
    ((execute_paper_trade freshState "aa" (some 0) none 1 (1/10) 100 "t1").2.trade_history.getLast?).map
      (fun t => t.value_usd) = some 0 ∧
    ¬ ((0 : ℚ) < 0) := by
  refine ⟨?_, by norm_num [freshState], ?_, by norm_num⟩
  · unfold execute_paper_trade freshState
    dsimp only
    rw [show (1/10 : ℚ) ⊓ 15 = 1/10 from min_eq_left (by norm_num)]
    norm_num [ExecResult.success]
  · unfold execute_paper_trade freshState
    dsimp only
    rw [show (1/10 : ℚ) ⊓ 15 = 1/10 from min_eq_left (by norm_num)]
    norm_num [List.getLast?_concat]

/-- C2, witness: on the fresh 10000-balance account with the default 3%
position size and 0.25% fee, the Open debits exactly 300 and the recorded
cost basis is 1197/4 = 299.25. -/
theorem c2_open_accounting_witness :
    (execute_paper_trade freshState "aa" none none 1 (1/10) 100 "t1").1.success = true ∧
    freshState.virtual_balance -
      (execute_paper_trade freshState "aa" none none 1 (1/10) 100 "t1").2.virtual_balance = 300 ∧
    ((execute_paper_trade freshState "aa" none none 1 (1/10) 100 "t1").2.trade_history.getLast?).map
      (fun t => t.value_usd) = some (1197/4) := by
  have hsucc : (execute_paper_trade freshState "aa" none none 1 (1/10) 100 "t1").1.success = true := by
    unfold execute_paper_trade freshState
    dsimp only
    rw [show (1/10 : ℚ) ⊓ 15 = 1/10 from min_eq_left (by norm_num)]
    norm_num [ExecResult.success]
  obtain ⟨hbal, hval, _, _, _⟩ :=
    c2_open_accounting freshState "aa" none none 1 (1/10) 100 "t1" hsucc
  refine ⟨hsucc, ?_, ?_⟩
  · rw [hbal]
    norm_num [freshState]
  · rw [hval]
    norm_num [freshState]

lemma monitor_price_tick_sl_mono (trail : ℚ) (info : TrackingInfo) (r : Option ℚ) :
    info.current_sl_level ≤ (monitor_price_tick trail info r).current_sl_level := by
  unfold monitor_price_tick
  split
  · exact le_rfl
  cases r with
  | none => exact le_rfl
  | some p =>
    dsimp only
    split
    · exact le_rfl
    split
    · split
      · rename_i hgt
        split
        · exact le_of_lt hgt
        · exact le_of_lt hgt
      · split
        · exact le_rfl
        · exact le_rfl
    · split
      · exact le_rfl
      · exact le_rfl

/-- C3: the stop-loss level of a tracked position never decreases: across
any sequence of price-fetch results (`PriceTracker.monitor_price` loop
iterations) the stop is monotone; a single tick never lowers it; on a tick
whose price exceeds the high-water mark, the candidate stop
`price * (1 - trailPct/100)` replaces the stop only when strictly
greater, otherwise the stop is left exactly where it was; and the
trailing-stop update of `Trader.monitor_trade` never lowers the stop
either. -/
theorem c3_stop_loss_monotonic :
    (∀ (trail : ℚ) (info : TrackingInfo) (ps : List (Option ℚ)),
      info.current_sl_level ≤ (ps.foldl (monitor_price_tick trail) info).current_sl_level) ∧
    (∀ (trail : ℚ) (info : TrackingInfo) (r : Option ℚ),
      info.current_sl_level ≤ (monitor_price_tick trail info r).current_sl_level) ∧
    (∀ (trail : ℚ) (info : TrackingInfo) (p : ℚ),
      info.sl_triggered = false → p ≠ 0 → info.highest_price < p →
      p * (1 - trail / 100) ≤ info.current_sl_level →
      (monitor_price_tick trail info (some p)).current_sl_level = info.current_sl_level) ∧
    (∀ (trail tax hi st p : ℚ), st ≤ (trader_trailing_update trail tax hi st p).2) := by
  refine ⟨?_, monitor_price_tick_sl_mono, ?_, ?_⟩
  · intro trail info ps
    induction ps generalizing info with
    | nil => exact le_rfl
    | cons r rest ih =>
      exact le_trans (monitor_price_tick_sl_mono trail info r)
        (ih (monitor_price_tick trail info r))
  · intro trail info p htrig hp hhi hle
    unfold monitor_price_tick
    rw [if_neg (by simp [htrig])]
    dsimp only
    rw [if_neg hp, if_pos (show p > ({ info with current_price := p } : TrackingInfo).highest_price from hhi)]
    rw [if_neg (not_lt.mpr hle)]
    split
    · rfl
    · rfl
  · intro trail tax hi st p
    unfold trader_trailing_update
    split
    · split
      · dsimp only
        split
        · rename_i h
          exact le_of_lt h
        · exact le_rfl
      · exact le_rfl
    · exact le_rfl

/-- C3, witness: the monotone-stop facts at concrete inputs — a four-tick
price walk from stop 0.7 never lowers the stop, and a tick to price 2
whose candidate stop 1.9 is below the current stop 1.95 leaves the stop
at exactly 1.95. -/
theorem c3_stop_loss_monotonic_witness :
    trackC.current_sl_level ≤
      (([some 2, none, some (3/2), some 4]).foldl (monitor_price_tick 5) trackC).current_sl_level ∧
    (monitor_price_tick 5 trackC2 (some 2)).current_sl_level = trackC2.current_sl_level := by
  constructor
  · exact c3_stop_loss_monotonic.1 5 trackC [some 2, none, some (3/2), some 4]
  · exact c3_stop_loss_monotonic.2.2.1 5 trackC2 2 rfl (by norm_num)
      (by norm_num [trackC2]) (by norm_num [trackC2])

/-- C8: a monitoring tick whose price fetch fails leaves the tracking
state completely unchanged — the position is not mutated, the stop-loss
is not triggered, and no close happens; the loop just sleeps and retries.
Python's `if not current_price` also treats a fetched price of `0.0` as a
failed fetch, with the same no-op behaviour. -/
theorem c8_price_unavailable_no_mutation :
    (∀ (trail : ℚ) (info : TrackingInfo), monitor_price_tick trail info none = info) ∧
    (∀ (trail : ℚ) (info : TrackingInfo), monitor_price_tick trail info (some 0) = info) := by
  constructor
  · intro trail info
    unfold monitor_price_tick
    split
    · rfl
    · rfl
  · intro trail info
    unfold monitor_price_tick
    split
    · rfl
    · dsimp only
      rw [if_pos rfl]

/-- C7: persistence round-trip.  Loading the document saved from any
account state restores every persisted field exactly — virtual balance,
positions, trade history, started-at, trading parameters, paused and
auto-execution — regardless of the in-memory state `t` the load is
applied to and of the wall clock `now`:
`load_data (save_data s) t now = s`. -/
theorem c7_persistence_round_trip (s t : PaperTraderState) (now : ℚ) :
    load_data (save_data s) t now = s := by
  cases s
  rfl

lemma dictSet_keys_of_mem {k : String} {v : Trade} {l : List (String × Trade)}
    (h : keyMem k l = true) : (dictSet k v l).map Prod.fst = l.map Prod.fst := by
  induction l with
  | nil => simp [keyMem] at h
  | cons p ps ih =>
    by_cases hb : (p.1 == k) = true
    · have hpk : p.1 = k := by simpa using hb
      simp [dictSet, if_pos hb, hpk]
    · have h' : keyMem k ps = true := by
        simp only [keyMem, List.any_cons, hb] at h
        simpa [keyMem] using h
      simp only [dictSet, if_neg hb, List.map_cons]
      rw [ih h']

/-- C4 (amended): `execute_paper_trade` has no duplicate-position check.
An Open whose symbol already has an open position is not rejected: when
the gates pass it succeeds and replaces the existing position in place —
the key set of the positions dict is unchanged and the trade stored under
the symbol is the new one. -/
theorem c4_duplicate_open_replaces (s : PaperTraderState) (tok : String)
    (pp psl : Option ℚ) (pr u now : ℚ) (tid : String)
    (hdup : keyMem (get_token_symbol tok) s.positions = true)
    (hsucc : (execute_paper_trade s tok pp psl pr u now tid).1.success = true) :
    ((execute_paper_trade s tok pp psl pr u now tid).2.positions.map Prod.fst =
      s.positions.map Prod.fst) ∧
    (dictGet (get_token_symbol tok) (execute_paper_trade s tok pp psl pr u now tid).2.positions).map
      (fun t => t.trade_id) = some tid := by
  simp only [execute_paper_trade] at hsucc ⊢
  split at hsucc
  · simp [ExecResult.success] at hsucc
  split at hsucc
  · simp [ExecResult.success] at hsucc
  split at hsucc
  · simp [ExecResult.success] at hsucc
  split at hsucc
  · simp [ExecResult.success] at hsucc
  split at hsucc
  · simp [ExecResult.success] at hsucc
  rename_i h1 h2 h3 h4 h5
  rw [if_neg h1, if_neg h2, if_neg h3, if_neg h4, if_neg h5]
  dsimp only
  rw [dictSet_keys_of_mem hdup, dictGet_dictSet]
  exact ⟨rfl, rfl⟩

/-- C4, counterexample: two identical signals for token "aa" one second
apart get different dedup keys ("aa_100" vs "aa_101"), so both pass the
dedup gate; the second Open then succeeds even though symbol "KK" still
has an open position, and it replaces that position (same single key,
trade id now "t3") — there is no DuplicatePosition rejection anywhere. -/
theorem c4_duplicate_open_counterexample :
    (signal_dedup_gate [] "aa" 100).1 = true ∧
    (signal_dedup_gate (signal_dedup_gate [] "aa" 100).2 "aa" 101).1 = true ∧
    keyMem "KK" stateAfterOpen.positions = true ∧
    (execute_paper_trade stateAfterOpen "aa" none none 1 (1/10) 101 "t3").1.success = true ∧
    (dictGet "KK" (execute_paper_trade stateAfterOpen "aa" none none 1 (1/10) 101 "t3").2.positions).map
      (fun t => t.trade_id) = some "t3" ∧
    (execute_paper_trade stateAfterOpen "aa" none none 1 (1/10) 101 "t3").2.positions.length = 1 := by
  refine ⟨by decide, by decide, ?_, ?_, ?_⟩
  · rw [stateAfterOpen_eq]
    decide
  · rw [stateAfterOpen_eq]
    unfold execute_paper_trade freshState
    dsimp only
    rw [show (1/10 : ℚ) ⊓ 15 = 1/10 from min_eq_left (by norm_num)]
    norm_num [ExecResult.success]
  · rw [stateAfterOpen_eq]
    unfold execute_paper_trade freshState
    dsimp only
    rw [show (1/10 : ℚ) ⊓ 15 = 1/10 from min_eq_left (by norm_num)]
    norm_num [dictSet, dictGet, show get_token_symbol "aa" = "KK" from by decide,
      List.find?_cons_of_pos]

/-- C4, witness: the replacement behaviour at the concrete duplicate open
of the counterexample — key set unchanged, stored trade id now "t3". -/
theorem c4_duplicate_open_replaces_witness :
    keyMem (get_token_symbol "aa") stateAfterOpen.positions = true ∧
    (execute_paper_trade stateAfterOpen "aa" none none 1 (1/10) 101 "t3").1.success = true ∧
    ((execute_paper_trade stateAfterOpen "aa" none none 1 (1/10) 101 "t3").2.positions.map Prod.fst =
      stateAfterOpen.positions.map Prod.fst) ∧
    (dictGet (get_token_symbol "aa")
        (execute_paper_trade stateAfterOpen "aa" none none 1 (1/10) 101 "t3").2.positions).map
      (fun t => t.trade_id) = some "t3" := by
  have hdup : keyMem (get_token_symbol "aa") stateAfterOpen.positions = true := by
    rw [stateAfterOpen_eq]
    decide
  have hsucc : (execute_paper_trade stateAfterOpen "aa" none none 1 (1/10) 101 "t3").1.success = true := by
    rw [stateAfterOpen_eq]
    unfold execute_paper_trade freshState
    dsimp only
    rw [show (1/10 : ℚ) ⊓ 15 = 1/10 from min_eq_left (by norm_num)]
    norm_num [ExecResult.success]
  obtain ⟨hkeys, hstored⟩ :=
    c4_duplicate_open_replaces stateAfterOpen "aa" none none 1 (1/10) 101 "t3" hdup hsucc
  exact ⟨hdup, hsucc, hkeys, hstored⟩

lemma mutateFirst_length (tid : String) (f : Trade → Trade) (l : List Trade) :
    (mutateFirst tid f l).length = l.length := by
  induction l with
  | nil => rfl
  | cons t ts ih =>
    simp only [mutateFirst]
    split
    · simp
    · simp [ih]

lemma mutateFirst_getElem {tid : String} {f : Trade → Trade} {l : List Trade}
    {i : ℕ} {t' : Trade} (h : (mutateFirst tid f l)[i]? = some t') :
    ∃ t, l[i]? = some t ∧ (t' = t ∨ (t' = f t ∧ t.trade_id = tid)) := by
  induction l generalizing i with
  | nil => simp [mutateFirst] at h
  | cons t ts ih =>
    simp only [mutateFirst] at h
    split at h
    · rename_i hb
      cases i with
      | zero =>
        simp only [List.getElem?_cons_zero, Option.some.injEq] at h
        exact ⟨t, by simp, Or.inr ⟨h.symm, by simpa using hb⟩⟩
      | succ j =>
        simp only [List.getElem?_cons_succ] at h
        exact ⟨t', by simp [h], Or.inl rfl⟩

    · cases i with
      | zero =>
        simp only [List.getElem?_cons_zero, Option.some.injEq] at h
        exact ⟨t, by simp, Or.inl h.symm⟩
      | succ j =>
        simp only [List.getElem?_cons_succ] at h
        obtain ⟨r, hr, hor⟩ := ih h
        exact ⟨r, by simp [hr], hor⟩

/-- C5, counterexample: the open record appended to the history by the
concrete Open (`status = "open"`, no exit fields) is mutated in place by
the Close of the same position: afterwards the record at index 0 of the
history has `status = "closed"` and populated exit fields, so the trade
history is not append-only. -/
theorem c5_append_only_counterexample :
    stateAfterOpen.trade_history[0]? = some openTradeC ∧
    stateAfterClose.trade_history[0]? = some openTradeClosedC ∧
    openTradeC.status = "open" ∧ openTradeClosedC.status = "closed" ∧
    openTradeClosedC ≠ openTradeC := by
  refine ⟨?_, ?_, rfl, rfl, ?_⟩
  · rw [stateAfterOpen_eq]
    rfl
  · rw [stateAfterClose_eq]
    rfl
  · intro h
    exact absurd (congrArg Trade.status h) (by decide)

/-- C5 (amended): closing a position appends exactly one new (sell)
record, but also mutates the first history record whose trade id matches
the closed position, setting its `status`, `exit_price`, `exit_time`,
`realized_pnl`, `pnl_percentage` and `close_reason`; every other field of
that record, every record with a different trade id, and every record's
position in the list are unchanged, and nothing is removed. -/
theorem c5_close_mutates_open_record (s : PaperTraderState)
    (key reason : String) (arg : Option ℚ) (fp u now : ℚ) (tid : String)
    (sym : String) (pos : Trade) (et : ℚ)
    (hfind : findPosition s key = some (sym, pos))
    (hentry : pos.entry_time = some et) :
    ((close_paper_position s key reason arg fp u now tid).2.trade_history.length =
      s.trade_history.length + 1) ∧
    (∀ (i : ℕ) (t t' : Trade), s.trade_history[i]? = some t →
      (close_paper_position s key reason arg fp u now tid).2.trade_history[i]? = some t' →
      sameCoreFields t t' ∧ (t.trade_id ≠ pos.trade_id → t' = t)) ∧
    (((close_paper_position s key reason arg fp u now tid).2.trade_history[s.trade_history.length]?).map
      (fun t => t.tradeType) = some "sell") := by
  unfold close_paper_position
  rw [hfind]
  dsimp only
  rw [hentry]
  dsimp only
  refine ⟨by simp [mutateFirst_length], ?_, ?_⟩
  · intro i t t' ht ht'
    have hlen : i < s.trade_history.length := (List.getElem?_eq_some_iff.mp ht).1
    rw [List.getElem?_append_left (by rw [mutateFirst_length]; exact hlen)] at ht'
    obtain ⟨r, hr, hor⟩ := mutateFirst_getElem ht'
    rw [ht] at hr
    injection hr with hr
    subst hr
    rcases hor with rfl | ⟨rfl, hid⟩
    · exact ⟨⟨rfl, rfl, rfl, rfl, rfl, rfl, rfl, rfl, rfl, rfl, rfl, rfl, rfl, rfl⟩,
        fun _ => rfl⟩
    · exact ⟨⟨rfl, rfl, rfl, rfl, rfl, rfl, rfl, rfl, rfl, rfl, rfl, rfl, rfl, rfl⟩,
        fun hne => absurd hid hne⟩
  · rw [show s.trade_history.length =
      (mutateFirst pos.trade_id (fun t =>
        { t with
            status := "closed"
            exit_price := some ((arg.getD fp) * (1 - min u s.trading_parameters.max_slippage / 100))
            exit_time := some now
            realized_pnl := some (pos.amount * ((arg.getD fp) * (1 - min u s.trading_parameters.max_slippage / 100)) -
              pos.amount * ((arg.getD fp) * (1 - min u s.trading_parameters.max_slippage / 100)) * (0.25/100) -
              pos.amount * pos.entry_price)
            pnl_percentage := some (if pos.amount * pos.entry_price > 0 then
              (pos.amount * ((arg.getD fp) * (1 - min u s.trading_parameters.max_slippage / 100)) -
                pos.amount * ((arg.getD fp) * (1 - min u s.trading_parameters.max_slippage / 100)) * (0.25/100) -
                pos.amount * pos.entry_price) / (pos.amount * pos.entry_price) * 100 else 0)
            close_reason := some reason }) s.trade_history).length
      from (mutateFirst_length _ _ _).symm]
    rw [List.getElem?_concat_length]
    rfl

/-- C5, witness: the concrete close of position "KK" grows the history by
exactly one record (applying the amended theorem at the concrete run). -/
theorem c5_close_mutates_open_record_witness :
    findPosition stateAfterOpen "KK" = some ("KK", openTradeC) ∧
    openTradeC.entry_time = some 100 ∧
    (close_paper_position stateAfterOpen "KK" "manual" (some 2) 0 (1/10) 101 "t2").2.trade_history.length =
      stateAfterOpen.trade_history.length + 1 := by
  have hfind : findPosition stateAfterOpen "KK" = some ("KK", openTradeC) := by
    rw [stateAfterOpen_eq]
    rfl
  exact ⟨hfind, rfl,
    (c5_close_mutates_open_record stateAfterOpen "KK" "manual" (some 2) 0 (1/10) 101 "t2"
      "KK" openTradeC 100 hfind rfl).1⟩

lemma keyMem_dictErase_self (k : String) (l : List (String × Trade)) :
    keyMem k (dictErase k l) = false := by
  simp only [keyMem, dictErase, List.any_eq_false]
  intro p hp
  have := List.of_mem_filter hp
  simp at this
  simp [this]

/-- C6: a successful full close removes the position from the
open-positions dict (and hence from `get_open_positions`, under any price
function and clock), credits the virtual balance with exactly the net
proceeds `amount * exitExecutionPrice * (1 - 0.25%)`, appends exactly one
terminal record with `status = "closed"` and kind "sell", and that
record's `realized_pnl` is positive exactly when the exit execution price
net of the fee exceeds the entry price and negative exactly when it is
below it (for a position of positive quantity). -/
theorem c6_full_close (s : PaperTraderState) (key reason : String) (arg : Option ℚ)
    (fp u now : ℚ) (tid : String) (sym : String) (pos : Trade) (et : ℚ)
    (hfind : findPosition s key = some (sym, pos))
    (hentry : pos.entry_time = some et) :
    (close_paper_position s key reason arg fp u now tid).1.success = true ∧
    keyMem sym (close_paper_position s key reason arg fp u now tid).2.positions = false ∧
    (∀ (pf : String → ℚ) (pnow : ℚ),
      ∀ info ∈ get_open_positions (close_paper_position s key reason arg fp u now tid).2 pf pnow,
        info.symbol ≠ sym) ∧
    (close_paper_position s key reason arg fp u now tid).2.virtual_balance =
      s.virtual_balance +
        (pos.amount * ((arg.getD fp) * (1 - min u s.trading_parameters.max_slippage / 100)) -
          pos.amount * ((arg.getD fp) * (1 - min u s.trading_parameters.max_slippage / 100)) * (0.25/100)) ∧
    (close_paper_position s key reason arg fp u now tid).2.trade_history.length =
      s.trade_history.length + 1 ∧
    ((close_paper_position s key reason arg fp u now tid).2.trade_history.getLast?).map
      (fun t => t.status) = some "closed" ∧
    ((close_paper_position s key reason arg fp u now tid).2.trade_history.getLast?).map
      (fun t => t.tradeType) = some "sell" ∧
    ((close_paper_position s key reason arg fp u now tid).2.trade_history.getLast?).map
      (fun t => t.realized_pnl) =
      some (some (pos.amount * ((arg.getD fp) * (1 - min u s.trading_parameters.max_slippage / 100)) -
        pos.amount * ((arg.getD fp) * (1 - min u s.trading_parameters.max_slippage / 100)) * (0.25/100) -
        pos.amount * pos.entry_price)) ∧
    (0 < pos.amount →
      ((0 < pos.amount * ((arg.getD fp) * (1 - min u s.trading_parameters.max_slippage / 100)) -
          pos.amount * ((arg.getD fp) * (1 - min u s.trading_parameters.max_slippage / 100)) * (0.25/100) -
          pos.amount * pos.entry_price ↔
        pos.entry_price < ((arg.getD fp) * (1 - min u s.trading_parameters.max_slippage / 100)) * (1 - 0.25/100)) ∧
       (pos.amount * ((arg.getD fp) * (1 - min u s.trading_parameters.max_slippage / 100)) -
          pos.amount * ((arg.getD fp) * (1 - min u s.trading_parameters.max_slippage / 100)) * (0.25/100) -
          pos.amount * pos.entry_price < 0 ↔
        ((arg.getD fp) * (1 - min u s.trading_parameters.max_slippage / 100)) * (1 - 0.25/100) < pos.entry_price))) := by
  unfold close_paper_position
  rw [hfind]
  dsimp only
  rw [hentry]
  dsimp only
  refine ⟨rfl, keyMem_dictErase_self sym s.positions, ?_, rfl, by simp [mutateFirst_length], ?_, ?_, ?_, ?_⟩
  · intro pf pnow info hinfo
    unfold get_open_positions at hinfo
    obtain ⟨p, hp, hinfo⟩ := List.mem_map.mp hinfo
    have hmem := List.of_mem_filter hp
    have hne : p.1 ≠ sym := by simpa using hmem
    rw [← hinfo]
    exact hne
  · rw [List.getLast?_concat]
    rfl
  · rw [List.getLast?_concat]
    rfl
  · rw [List.getLast?_concat]
    rfl
  · intro hamt
    constructor
    · constructor
      · intro h
        nlinarith
      · intro h
        nlinarith
    · constructor
      · intro h
        nlinarith
      · intro h
        nlinarith

/-- C6, witness: closing the concrete "KK" position succeeds, removes it,
and appends a terminal closed record. -/
theorem c6_full_close_witness :
    findPosition stateAfterOpen "KK" = some ("KK", openTradeC) ∧
    (0:ℚ) < openTradeC.amount ∧
    (close_paper_position stateAfterOpen "KK" "manual" (some 2) 0 (1/10) 101 "t2").1.success = true ∧
    keyMem "KK" (close_paper_position stateAfterOpen "KK" "manual" (some 2) 0 (1/10) 101 "t2").2.positions = false ∧
    ((close_paper_position stateAfterOpen "KK" "manual" (some 2) 0 (1/10) 101 "t2").2.trade_history.getLast?).map
      (fun t => t.status) = some "closed" := by
  have hfind : findPosition stateAfterOpen "KK" = some ("KK", openTradeC) := by
    rw [stateAfterOpen_eq]
    rfl
  have hc := c6_full_close stateAfterOpen "KK" "manual" (some 2) 0 (1/10) 101 "t2"
    "KK" openTradeC 100 hfind rfl
  exact ⟨hfind, by norm_num [openTradeC], hc.1, hc.2.1, hc.2.2.2.2.2.1⟩

lemma mergeSort_pair (a b : Trade) (le : Trade → Trade → Bool) :
    [a, b].mergeSort le = if le a b then [a, b] else [b, a] := by
  by_cases h : le a b = true
  · rw [if_pos h]
    simp [List.mergeSort, List.merge, h]
  · rw [if_neg h]
    simp only [Bool.not_eq_true] at h
    simp [List.mergeSort, List.merge, h]

/-- C9 (amended): `get_trade_history` reports `total` as the full number
of history records and returns at most `limit` records starting at
`offset` of the history sorted newest-first by the `entry_time` key with
a missing `entry_time` read as 0 — so exit records, which carry only
`exit_time`, sort as if infinitely old and land at the end regardless of
how recent they are (see the counterexample); with `offset = 0` and a
large enough `limit` the page is a permutation of the whole history. -/
theorem c9_history_page (s : PaperTraderState) (limit offset : ℕ) :
    (get_trade_history s limit offset).total = s.trade_history.length ∧
    (get_trade_history s limit offset).trades.length ≤ limit ∧
    List.Pairwise (fun a b => entryKey b ≤ entryKey a) (get_trade_history s limit offset).trades ∧
    (∀ t ∈ (get_trade_history s limit offset).trades, t ∈ s.trade_history) ∧
    (offset = 0 → s.trade_history.length ≤ limit →
      (get_trade_history s limit offset).trades.Perm s.trade_history) := by
  have hperm := List.mergeSort_perm s.trade_history
    (fun a b => decide (entryKey b ≤ entryKey a))
  have hsorted := @List.sorted_mergeSort Trade
    (fun a b => decide (entryKey b ≤ entryKey a))
    (fun a b c hab hbc => by
      simp only [decide_eq_true_eq] at hab hbc ⊢
      exact le_trans hbc hab)
    (fun a b => by
      simp only [Bool.or_eq_true, decide_eq_true_eq]
      exact le_total (entryKey b) (entryKey a))
    s.trade_history
  unfold get_trade_history
  dsimp only
  refine ⟨hperm.length_eq, ?_, ?_, ?_, ?_⟩
  · split
    · exact le_trans (List.length_take_le _ _) le_rfl
    · simp
  · have hsub : (if offset <
        (s.trade_history.mergeSort (fun a b => decide (entryKey b ≤ entryKey a))).length then
          ((s.trade_history.mergeSort (fun a b => decide (entryKey b ≤ entryKey a))).drop offset).take limit
        else []).Sublist
        (s.trade_history.mergeSort (fun a b => decide (entryKey b ≤ entryKey a))) := by
      split
      · exact (List.take_sublist _ _).trans (List.drop_sublist _ _)
      · exact List.nil_sublist _
    exact List.Pairwise.sublist hsub (hsorted.imp (fun h => by exact decide_eq_true_eq.mp h))
  · intro t ht
    have hsub : (if offset <
        (s.trade_history.mergeSort (fun a b => decide (entryKey b ≤ entryKey a))).length then
          ((s.trade_history.mergeSort (fun a b => decide (entryKey b ≤ entryKey a))).drop offset).take limit
        else []).Sublist
        (s.trade_history.mergeSort (fun a b => decide (entryKey b ≤ entryKey a))) := by
      split
      · exact (List.take_sublist _ _).trans (List.drop_sublist _ _)
      · exact List.nil_sublist _
    exact hperm.mem_iff.mp (hsub.mem ht)
  · intro h0 hlim
    subst h0
    by_cases hlen : 0 <
        (s.trade_history.mergeSort (fun a b => decide (entryKey b ≤ entryKey a))).length
    · rw [if_pos hlen, List.drop_zero,
        List.take_of_length_le (by rw [hperm.length_eq]; exact hlim)]
      exact hperm
    · rw [if_neg hlen]
      have : s.trade_history.length = 0 := by
        rw [← hperm.length_eq]
        omega
      rw [List.length_eq_zero.mp this]

/-- C9, counterexample: after the concrete open (entry time 100) and
close (exit time 101), `get_trade_history` returns the mutated open
record before the closing record, although the closing record's own
timestamp (101) is newer — exit records have no `entry_time` key, so the
sort key `x.get('entry_time', 0)` places them last, and the page is not
sorted newest-first by the records' timestamps. -/
theorem c9_history_order_counterexample :
    (get_trade_history stateAfterClose 50 0).trades = [openTradeClosedC, closeTradeC] ∧
    specTimestamp openTradeClosedC = 100 ∧
    specTimestamp closeTradeC = 101 ∧
    ¬ List.Pairwise (fun a b => specTimestamp b ≤ specTimestamp a)
        (get_trade_history stateAfterClose 50 0).trades := by
  have htr : (get_trade_history stateAfterClose 50 0).trades = [openTradeClosedC, closeTradeC] := by
    rw [stateAfterClose_eq]
    unfold get_trade_history
    rw [mergeSort_pair]
    rw [if_pos (by norm_num [entryKey, openTradeClosedC, openTradeC, closeTradeC])]
    norm_num
  refine ⟨htr, rfl, rfl, ?_⟩
  rw [htr]
  intro h
  have hrel := (List.pairwise_cons.mp h).1 closeTradeC (by simp)
  norm_num [specTimestamp, openTradeClosedC, openTradeC, closeTradeC] at hrel

/-- C9, witness: on the concrete two-record history the page with
`limit = 50`, `offset = 0` reports total 2 and returns a permutation of
the full history. -/
theorem c9_history_page_witness :
    (get_trade_history stateAfterClose 50 0).total = stateAfterClose.trade_history.length ∧
    (get_trade_history stateAfterClose 50 0).trades.Perm stateAfterClose.trade_history := by
  have h := c9_history_page stateAfterClose 50 0
  exact ⟨h.1, h.2.2.2.2 rfl (by rw [stateAfterClose_eq]; norm_num)⟩
